import Mathlib

/-!
Verification of the forwarding bot in `src/server.js`.

The file shallow-embeds the pieces of the program that the specification's
claims are about:

* the identifier normalizer `normalizeChatRef` (server.js lines 22-33);
* the per-chat session record and `resetSession`/`getSession` defaults
  (lines 79-88);
* the command handlers (`/start`, `/cancel`, `/chatid`, `/test`,
  `/forward start end`) and the non-command step handler
  (lines 93-317), modelled as a pure dispatcher from the incoming text and
  the current session to the updated session, the list of outbound
  messages, and an optional forward-run request;
* the forward copy loop with its rate-limit retry policy (lines 274-315),
  modelled as a pure function of an outcome oracle for the copy attempts.

Strings are modelled as lists of characters (`String.toList`); the external
Telegram calls (`getChat`, `copyMessage`) are oracles passed in as
functions; `sleep` calls are recorded as a trace of durations in
milliseconds; outbound `sendMessage` calls are recorded as a trace of
tagged messages.  JavaScript numbers that the program uses as message ids,
chat ids and retry hints are modelled as `Int` (exact integer parsing; the
IEEE-754 rounding of digit strings of three hundred or more characters is
not modelled).
-/

namespace Forw

/-! ## Characters and trimming -/

/-- ASCII whitespace as matched by JavaScript `trim` / `\s`
(the rare non-ASCII whitespace code points are not modelled). -/
def isWsChar (c : Char) : Bool :=
  c = ' ' || c = '\t' || c = '\n' || c = '\r' || c = '\x0b' || c = '\x0c'

/-- A JavaScript `\w` / `[A-Za-z0-9_]` character. -/
def isWordChar (c : Char) : Bool :=
  c.isAlphanum || c = '_'

/-- `String.prototype.trim`: drop whitespace from both ends. -/
def trimChars (l : List Char) : List Char :=
  ((l.dropWhile isWsChar).reverse.dropWhile isWsChar).reverse

/-- Value of a string of decimal digits. -/
def parseDigits (l : List Char) : Nat :=
  l.foldl (fun n c => 10 * n + (c.toNat - '0'.toNat)) 0

/-- Value of an optionally minus-signed string of decimal digits
(`Number(raw)` on a string matching `^-?\d+$`). -/
def parseSignedInt : List Char → Int
  | '-' :: rest => -(parseDigits rest : Int)
  | l => (parseDigits l : Int)

/-- The test `^-?\d+$` from server.js line 27. -/
def matchSignedDigits : List Char → Bool
  | [] => false
  | c :: rest =>
    if c = '-' then !rest.isEmpty && rest.all Char.isDigit
    else (c :: rest).all Char.isDigit

/-- The test `^[A-Za-z0-9_]{5,}$` from server.js line 31. -/
def matchHandle (l : List Char) : Bool :=
  decide (5 ≤ l.length) && l.all isWordChar

/-- `raw.startsWith("@") ? raw.slice(1) : raw` (server.js line 30). -/
def stripAt : List Char → List Char
  | '@' :: rest => rest
  | l => l

/-! ## The identifier normalizer (server.js lines 22-33) -/

/-- A normalized chat reference: a numeric chat id or a `"@handle"` string. -/
inductive ChatRef where
  | num (n : Int)
  | handle (h : String)
deriving DecidableEq, Repr

/-- `normalizeChatRef` from server.js lines 22-33, on a character list. -/
def normalizeLC (l : List Char) : Option ChatRef :=
  let raw := trimChars l
  if raw.isEmpty then none
  else if matchSignedDigits raw then some (.num (parseSignedInt raw))
  else
    let uname := stripAt raw
    if matchHandle uname then some (.handle (String.mk ('@' :: uname)))
    else none

/-- `normalizeChatRef` from server.js lines 22-33. -/
def normalizeChatRef (input : String) : Option ChatRef :=
  normalizeLC input.toList

/-- Modelled from the spec's words for claim C3 (the refinement side):
first the purely numeric case `^-?\d+$` on the trimmed input, otherwise one
optional leading `@` is stripped and `^[A-Za-z0-9_]{5,}$` is required, and
every other input (including empty or whitespace-only text) gives `null`. -/
def normalizeSpecLC (l : List Char) : Option ChatRef :=
  let t := trimChars l
  if matchSignedDigits t then some (.num (parseSignedInt t))
  else
    let r := stripAt t
    if matchHandle r then some (.handle (String.mk ('@' :: r)))
    else none

/-- The spec's description of the normalizer, on strings. -/
def normalizeSpecModel (input : String) : Option ChatRef :=
  normalizeSpecLC input.toList

/-! ## Sessions (server.js lines 72-88) -/

/-- The conversation step stored in `session.step`
(`null` is modelled as `none`). -/
inductive Step where
  | SRC | DST | TEST_USERNAME
deriving DecidableEq, Repr

/-- A per-chat session.  A fresh session is `{ step: null, running: false }`
with the remaining fields absent (modelled as `none`). -/
structure Session where
  step : Option Step := none
  running : Bool := false
  startId : Option Int := none
  endId : Option Int := none
  srcRef : Option ChatRef := none
  dstRef : Option ChatRef := none
deriving DecidableEq, Repr

/-- The default session written by `getSession` on first access and by
`resetSession` (server.js lines 81-88). -/
def defaultSession : Session := {}

/-! ## Command recognition (the `onText` regular expressions) -/

/-- Strip an exact literal prefix, returning the remainder. -/
def dropLit : List Char → List Char → Option (List Char)
  | [], rest => some rest
  | _ :: _, [] => none
  | p :: ps, c :: cs => if c = p then dropLit ps cs else none

/-- The tail `(?:@\w+)?$` of the simple command patterns. -/
def tailBotOk : List Char → Bool
  | [] => true
  | '@' :: rest => !rest.isEmpty && rest.all isWordChar
  | _ => false

/-- Whether `raw` matches `^/name(?:@\w+)?$` for the literal `name`
(the `/start`, `/cancel`, `/chatid` and `/test` patterns). -/
def simpleCmd (lit : String) (raw : List Char) : Bool :=
  match dropLit lit.toList raw with
  | some rest => tailBotOk rest
  | none => false

/-- The optional `(?:@\w+)?` bot tag after `/forward`; if a bare `@`
follows, the whole pattern fails (the next element is `\s+`). -/
def dropBotTag : List Char → Option (List Char)
  | '@' :: rest =>
    if (rest.takeWhile isWordChar).isEmpty then none
    else some (rest.dropWhile isWordChar)
  | l => some l

/-- One `\s+`: at least one whitespace character, consumed maximally. -/
def skipWs1 : List Char → Option (List Char)
  | c :: rest => if isWsChar c then some (rest.dropWhile isWsChar) else none
  | [] => none

/-- One capture group `(-?\d+)`, consumed maximally, with its value. -/
def parseSignedDigits : List Char → Option (Int × List Char)
  | '-' :: rest =>
    if (rest.takeWhile Char.isDigit).isEmpty then none
    else some (-(parseDigits (rest.takeWhile Char.isDigit) : Int),
               rest.dropWhile Char.isDigit)
  | l =>
    if (l.takeWhile Char.isDigit).isEmpty then none
    else some ((parseDigits (l.takeWhile Char.isDigit) : Int),
               l.dropWhile Char.isDigit)

/-- The `/forward` pattern `^\/forward(?:@\w+)?\s+(-?\d+)\s+(-?\d+)\s*$`
(server.js line 137), returning the two captured integers. -/
def parseForwardCmd (raw : List Char) : Option (Int × Int) := do
  let r1 ← dropLit "/forward".toList raw
  let r2 ← dropBotTag r1
  let r3 ← skipWs1 r2
  let (a, r4) ← parseSignedDigits r3
  let r5 ← skipWs1 r4
  let (b, r6) ← parseSignedDigits r5
  if (r6.dropWhile isWsChar).isEmpty then pure (a, b) else none

/-- How one incoming text is routed: the `onText` patterns are anchored and
mutually exclusive, and the generic `message` handler (server.js line 175)
ignores empty text and text starting with `/`. -/
inductive Cmd where
  | start | cancel | chatid | test
  | forward (a b : Int)
  | stepText (t : List Char)
  | ignored
deriving DecidableEq, Repr

/-- Classify a raw incoming text. -/
def classify (raw : List Char) : Cmd :=
  if simpleCmd "/start" raw then .start
  else if simpleCmd "/cancel" raw then .cancel
  else if simpleCmd "/chatid" raw then .chatid
  else if simpleCmd "/test" raw then .test
  else
    match parseForwardCmd raw with
    | some (a, b) => .forward a b
    | none =>
      match trimChars raw with
      | [] => .ignored
      | c :: rest => if c = '/' then .ignored else .stepText (c :: rest)

/-! ## Outbound messages -/

/-- The `bot.sendMessage` calls the handlers make, tagged by which message
text is sent, with the data that is interpolated into it. -/
inductive Out where
  | startHelp
  | cancelled
  | chatIdMsg
  | testPrompt
  | alreadyRunning
  | rangeSetPrompt (startId endId : Int)
  | invalidRefInput
  | srcReceivedPrompt
  | testNeedUsername
  | testResolved (ref : ChatRef) (id : Int)
  | testResolveError (ref : ChatRef) (err : String)
  | srcResolveError (ref : Option ChatRef) (err : String)
  | dstResolveError (ref : Option ChatRef) (err : String)
  | startingCopy (srcId dstId startId endId : Int)
  | doneSummary (ok fail : Nat)
deriving DecidableEq, Repr

/-! ## The forward copy loop (server.js lines 274-315) -/

/-- Outcome of one `bot.copyMessage` call: success, or an error carrying an
optional HTTP status and an optional `parameters.retry_after` hint. -/
inductive CopyOutcome where
  | ok
  | err (status : Option Int) (retryAfter : Option Int)
deriving DecidableEq, Repr

/-- What processing one message index contributes: the increment to the
success and failure counters, the copy attempts made (index, is-retry), and
the `sleep` calls made, in milliseconds. -/
structure IndexResult where
  okInc : Nat
  failInc : Nat
  attempts : List (Int × Bool)
  sleeps : List Int
deriving DecidableEq, Repr

/-- The body of the `for` loop at server.js lines 277-312 for one index
`mid`.  `copy mid retry` is the outcome of the (first or retried)
`bot.copyMessage(dstId, srcId, mid)` call; `baseMs`/`failMs` are the sleep
durations `BASE_DELAY * 1000` and `FAIL_DELAY * 1000` in milliseconds
(900 and 1700 under the default configuration); the rate-limit wait is
`waitSec * 1000 = (retryAfter + 1) * 1000` milliseconds. -/
def processIndex (copy : Int → Bool → CopyOutcome) (baseMs failMs : Int)
    (mid : Int) : IndexResult :=
  match copy mid false with
  | .ok => ⟨1, 0, [(mid, false)], [baseMs]⟩
  | .err status retryAfter =>
    match status, retryAfter with
    | some st, some n =>
      if st = 429 then
        match copy mid true with
        | .ok =>
          ⟨1, 0, [(mid, false), (mid, true)], [(n + 1) * 1000, baseMs]⟩
        | .err _ _ =>
          ⟨0, 1, [(mid, false), (mid, true)], [(n + 1) * 1000, failMs]⟩
      else ⟨0, 1, [(mid, false)], [failMs]⟩
    | _, _ => ⟨0, 1, [(mid, false)], [failMs]⟩

/-- The indices `for (let mid = lo; mid <= hi; mid++)` iterates over. -/
def rangeList (lo hi : Int) : List Int :=
  (List.range (hi + 1 - lo).toNat).map (fun i : Nat => lo + (i : Int))

/-- Accumulated result of the whole loop. -/
structure RunResult where
  ok : Nat
  fail : Nat
  attempts : List (Int × Bool)
  sleeps : List Int
deriving DecidableEq, Repr

/-- The loop folded over a list of indices. -/
def runGo (copy : Int → Bool → CopyOutcome) (baseMs failMs : Int) :
    List Int → RunResult
  | [] => ⟨0, 0, [], []⟩
  | mid :: rest =>
    let r := processIndex copy baseMs failMs mid
    let t := runGo copy baseMs failMs rest
    ⟨r.okInc + t.ok, r.failInc + t.fail, r.attempts ++ t.attempts, r.sleeps ++ t.sleeps⟩

/-- The forward copy loop of server.js lines 274-312. -/
def runForward (copy : Int → Bool → CopyOutcome) (baseMs failMs : Int)
    (lo hi : Int) : RunResult :=
  runGo copy baseMs failMs (rangeList lo hi)

/-! ## The dispatcher (command handlers and the step handler) -/

/-- A request to start the copy loop, produced when both chat references
resolve (server.js lines 266-277). -/
structure RunRequest where
  srcId : Int
  dstId : Int
  startId : Int
  endId : Int
deriving DecidableEq, Repr

/-- `resolveChatId` (server.js lines 35-42): a numeric reference is
returned unchanged (no call is made); a handle is looked up through
`bot.getChat`, which may fail.  The `none` case models the unreachable
`getChat(null)` call, which rejects; the oracle decides its message. -/
def resolveChatIdM (getChat : Option String → Except String Int) :
    Option ChatRef → Except String Int
  | some (.num n) => .ok n
  | some (.handle h) => getChat (some h)
  | none => getChat none

/-- The non-command step handler, `bot.on("message")`
(server.js lines 175-317), on the trimmed text `t` (nonempty and not
starting with `/`).  On the `DST` step with both resolutions succeeding it
marks the session running and issues a `RunRequest`; the copy loop itself
and its final report are modelled separately (`runForward`,
`applyEvent (.runDone ..)`), matching the `await` points at which the loop
is suspended while other messages are handled.  This function renders the
DST branch as one atomic step; the branch's own two resolution awaits are
split out as `dstProlog`/`dstAfterSrc`/`dstAfterDst` below, whose
uninterleaved composition equals this branch
(`stepHandler_dst_eq_phases`). -/
def stepHandler (getChat : Option String → Except String Int) (s : Session)
    (t : List Char) : Session × List Out × Option RunRequest :=
  match s.step with
  | none => (s, [], none)
  | some .TEST_USERNAME =>
    match normalizeLC t with
    | none => (s, [.testNeedUsername], none)
    | some (.num _) => (s, [.testNeedUsername], none)
    | some (.handle h) =>
      match getChat (some h) with
      | .ok id => (defaultSession, [.testResolved (.handle h) id], none)
      | .error e => (defaultSession, [.testResolveError (.handle h) e], none)
  | some .SRC =>
    match normalizeLC t with
    | none => (s, [.invalidRefInput], none)
    | some ref =>
      ({ s with srcRef := some ref, step := some .DST }, [.srcReceivedPrompt], none)
  | some .DST =>
    match normalizeLC t with
    | none => (s, [.invalidRefInput], none)
    | some ref =>
      match resolveChatIdM getChat s.srcRef with
      | .error e => (defaultSession, [.srcResolveError s.srcRef e], none)
      | .ok srcId =>
        match resolveChatIdM getChat (some ref) with
        | .error e => (defaultSession, [.dstResolveError (some ref) e], none)
        | .ok dstId =>
          match s.startId, s.endId with
          | some a, some b =>
            ({ s with dstRef := some ref, step := none, running := true },
             [.startingCopy srcId dstId a b], some ⟨srcId, dstId, a, b⟩)
          | _, _ =>
            ({ s with dstRef := some ref, step := none, running := true },
             [.startingCopy srcId dstId 0 0], some ⟨srcId, dstId, 1, 0⟩)

/-- One incoming text message handled against the stored session
(server.js lines 93-317): the command handlers, falling through to the
step handler for non-command text.  Returns the updated stored session,
the outbound messages, and an optional request to start the copy loop. -/
def dispatch (getChat : Option String → Except String Int) (s : Session)
    (text : String) : Session × List Out × Option RunRequest :=
  match classify text.toList with
  | .start => (s, [.startHelp], none)
  | .cancel => (defaultSession, [.cancelled], none)
  | .chatid => (s, [.chatIdMsg], none)
  | .test =>
    if s.running then (s, [.testPrompt], none)
    else ({ s with step := some .TEST_USERNAME }, [.testPrompt], none)
  | .forward a b =>
    if s.running then (s, [.alreadyRunning], none)
    else
      ({ s with startId := some (if b < a then b else a),
                endId := some (if b < a then a else b),
                srcRef := none, dstRef := none, step := some .SRC },
       [.rangeSetPrompt (if b < a then b else a) (if b < a then a else b)], none)
  | .stepText t => stepHandler getChat s t
  | .ignored => (s, [], none)

/-- The events that mutate a chat's stored session: an incoming text
message (with the `getChat` oracle for that handling), and the completion
of a copy loop, which sends the final summary and resets the session
(server.js lines 314-315). -/
inductive Event where
  | msg (text : String) (getChat : Option String → Except String Int)
  | runDone (ok fail : Nat)

/-- Apply one event to the stored session. -/
def applyEvent : Event → Session → Session × List Out × Option RunRequest
  | .msg text getChat, s => dispatch getChat s text
  | .runDone ok fail, _ => (defaultSession, [.doneSummary ok fail], none)

/-- The stored sessions reachable when every message handling runs
atomically: each event is one whole `applyEvent` step, with no other
message for the chat handled in between.  This under-approximates the
program: the DST branch of the message handler suspends at its two
`resolveChatId` awaits (server.js lines 237 and 252), and a message
handled during such a suspension mutates the same stored session
mid-handler — see `dstProlog`/`dstAfterSrc`/`dstAfterDst` below and
`running_with_step_src_counterexample`. -/
inductive AtomicReachable : Session → Prop where
  | init : AtomicReachable defaultSession
  | step (s : Session) (ev : Event) :
      AtomicReachable s → AtomicReachable (applyEvent ev s).1

/-! ## The DST branch split at its suspension points

`stepHandler` renders one message handling as a single step, but in the
source the handler is an `async` function: its DST branch suspends at
`await resolveChatId(bot, s.srcRef)` (server.js line 237) and at
`await resolveChatId(bot, s.dstRef)` (line 252), and between a suspension
and its resumption the event loop handles other incoming messages for the
same chat, which read and mutate the same stored session object.  The
three functions below are the maximal synchronous segments of the DST
branch; composed without interleaving they equal the `stepHandler` DST
branch (`stepHandler_dst_eq_phases`). -/

/-- Synchronous prologue of the DST branch (server.js lines 227-237),
after a successful normalize: store the destination reference, clear the
step, and read the current `s.srcRef` as the argument of the first
`resolveChatId` call.  (A failed normalize replies and finishes with no
suspension, exactly as in `stepHandler`.) -/
def dstProlog (s : Session) (ref : ChatRef) : Session × Option ChatRef :=
  ({ s with dstRef := some ref, step := none }, s.srcRef)

/-- Continuation at the first resumption (server.js lines 238-252): a
source-resolution failure resets the session and reports the source side,
interpolating the current `s.srcRef` (line 242); success reads the current
`s.dstRef` (line 252) as the argument of the second `resolveChatId` call
and suspends again.  `cur` is the stored session at resumption time, which
interleaved handlers may have changed. -/
def dstAfterSrc (cur : Session) (r : Except String Int) :
    Session × List Out × Option (Int × Option ChatRef) :=
  match r with
  | .error e => (defaultSession, [.srcResolveError cur.srcRef e], none)
  | .ok srcId => (cur, [], some (srcId, cur.dstRef))

/-- Continuation at the second resumption (server.js lines 253-277): a
destination-resolution failure resets the session and reports the target
side, interpolating the current `s.dstRef` (line 257); success sets
`running := true` on the current stored session (line 267) and starts the
copy loop over the range read from it (lines 271-277; an unset range is
the vacuous-loop corner, modelled as in `stepHandler`). -/
def dstAfterDst (cur : Session) (srcId : Int) (r : Except String Int) :
    Session × List Out × Option RunRequest :=
  match r with
  | .error e => (defaultSession, [.dstResolveError cur.dstRef e], none)
  | .ok dstId =>
    let s2 := { cur with running := true }
    match s2.startId, s2.endId with
    | some a, some b =>
      (s2, [.startingCopy srcId dstId a b], some ⟨srcId, dstId, a, b⟩)
    | _, _ =>
      (s2, [.startingCopy srcId dstId 0 0], some ⟨srcId, dstId, 1, 0⟩)

/-! ## Concrete instances used to exercise the theorems -/

/-- A `getChat` oracle that resolves every handle to chat id 42. -/
def gcOk : Option String → Except String Int := fun _ => .ok 42

/-- A session whose forward runner is currently executing: this is the
state the DST handler stores just before starting the loop. -/
def sBusy : Session :=
  { step := none, running := true, startId := some 5, endId := some 7,
    srcRef := some (.num 1), dstRef := some (.num 2) }

/-- A session waiting for the destination reference. -/
def sDst : Session :=
  { step := some .DST, running := false, startId := some 5, endId := some 7,
    srcRef := some (.handle "@srcchan"), dstRef := none }

/-- A copy oracle whose first attempt at index 6 is rate limited with a
3-second hint and every other attempt succeeds. -/
def copyRL : Int → Bool → CopyOutcome := fun mid retry =>
  if mid = 6 ∧ retry = false then .err (some 429) (some 3) else .ok

/-- A copy oracle that always fails without a rate-limit signal. -/
def copyPlain : Int → Bool → CopyOutcome := fun _ _ => .err (some 400) none

/-- A copy oracle that always succeeds. -/
def copyAllOk : Int → Bool → CopyOutcome := fun _ _ => .ok

/-- The events of a complete successful setup: range command, source
handle, destination handle. -/
def evForward : Event := .msg "/forward 5 7" gcOk

/-- Source-handle input event. -/
def evSrc : Event := .msg "srcchan" gcOk

/-- Destination-handle input event. -/
def evDst : Event := .msg "dstchan" gcOk

/-- The stored session after the full setup: the runner has been started
and the stored session is running. -/
def sRun : Session :=
  (applyEvent evDst (applyEvent evSrc (applyEvent evForward defaultSession).1).1).1

/-- In-order list of the message indices of the first (non-retry) copy
attempts in a trace. -/
def firstMids (l : List (Int × Bool)) : List Int :=
  l.filterMap (fun p => if p.2 then none else some p.1)

/-- The stored session after the DST prologue has run on input `dstchan`
from `sDst`: destination stored, step cleared, both resolutions still
ahead. -/
def sMidDst : Session := (dstProlog sDst (.handle "@dstchan")).1

/-- The stored session after a `/forward 1 2` is handled during the
suspension at the destination-resolution await: the running guard
(server.js line 141) passes because `running` is still false, so the
handler stores the new range and sets the step to `SRC` on the same
stored session. -/
def sMidFwd : Session := (dispatch gcOk sMidDst "/forward 1 2").1

/-- The stored session after the suspended DST handler resumes with the
destination resolved to 77: it sets `running := true` (server.js line
267) on the session the interleaved `/forward` just mutated. -/
def sViolating : Session := (dstAfterDst sMidFwd 42 (.ok 77)).1

/-! ## Theorems -/

lemma normalizeLC_eq_spec (l : List Char) : normalizeLC l = normalizeSpecLC l := by
  unfold normalizeLC normalizeSpecLC
  cases h : trimChars l with
  | nil => simp [matchSignedDigits, stripAt, matchHandle]
  | cons c cs => simp [List.isEmpty]

/-- Claim C3: the normalizer is a pure total function on text: a trimmed
input matching `^-?\d+$` yields the parsed signed integer; otherwise, after
stripping one optional leading `@`, a trimmed input matching
`^[A-Za-z0-9_]{5,}$` yields `"@"` plus the remainder; every other input
(including empty or whitespace-only text) yields `null`, with no other
failure mode. -/
theorem normalize_matches_spec (input : String) :
    normalizeChatRef input = normalizeSpecModel input :=
  normalizeLC_eq_spec input.toList

/-- Claim C6: a `/forward` range command received while the session is
running is rejected with a warning and leaves the whole session state
unchanged. -/
theorem forward_rejected_while_running (gc : Option String → Except String Int)
    (s : Session) (text : String) (a b : Int)
    (hc : classify text.toList = .forward a b) (hr : s.running = true) :
    dispatch gc s text = (s, [.alreadyRunning], none) := by
  unfold dispatch
  rw [hc]
  simp [hr]

/-- Witness for C6 at the concrete running session and `/forward 1 2`. -/
theorem forward_rejected_while_running_witness :
    dispatch gcOk sBusy "/forward 1 2" = (sBusy, [.alreadyRunning], none) :=
  forward_rejected_while_running gcOk sBusy "/forward 1 2" 1 2 (by decide) rfl

/-- Claim C7: an accepted `/forward a b` command stores a normalized range
`startId ≤ endId`, swapping the two arguments when the second is smaller,
sets the step to `SRC` (awaiting source) and prompts for the source. -/
theorem forward_range_swap_stored (gc : Option String → Except String Int)
    (s : Session) (text : String) (a b : Int)
    (hc : classify text.toList = .forward a b) (hr : s.running = false) :
    dispatch gc s text =
      ({ s with startId := some (if b < a then b else a),
                endId := some (if b < a then a else b),
                srcRef := none, dstRef := none, step := some .SRC },
       [.rangeSetPrompt (if b < a then b else a) (if b < a then a else b)],
       none)
    ∧ (if b < a then b else a) ≤ (if b < a then a else b) := by
  refine ⟨by unfold dispatch; rw [hc]; simp [hr], ?_⟩
  split <;> omega

/-- Witness for C7: `/forward 30 2` stores `startId = 2`, `endId = 30`. -/
theorem forward_range_swap_stored_witness :
    dispatch gcOk defaultSession "/forward 30 2" =
      ({ defaultSession with
         startId := some 2, endId := some 30,
         srcRef := none, dstRef := none, step := some .SRC },
       [.rangeSetPrompt 2 30], none) := by
  have h := (forward_range_swap_stored gcOk defaultSession "/forward 30 2"
    30 2 (by decide) rfl).1
  simpa using h

/-- Counterexample to claim C5 as stated: cancelling while a forward
runner is executing does alter the stored session's `running` flag —
`resetSession` overwrites the stored session with the default, whose
`running` is `false`. -/
theorem cancel_running_counterexample :
    sBusy.running = true ∧ (dispatch gcOk sBusy "/cancel").1.running = false :=
  ⟨rfl, rfl⟩

/-- Claim C5 (amended): cancel at any step resets the stored session to
the full default — step `NONE`, range and references cleared, and
`running` set back to `false` — even while a runner is executing; the
executing loop itself is not interrupted: its completion still reports the
summary and resets the session. -/
theorem cancel_full_reset (gc : Option String → Except String Int)
    (s : Session) (text : String) (hc : classify text.toList = .cancel) :
    dispatch gc s text = (defaultSession, [.cancelled], none) ∧
    (∀ ok fail, applyEvent (.runDone ok fail) (dispatch gc s text).1 =
      (defaultSession, [.doneSummary ok fail], none)) := by
  exact ⟨by unfold dispatch; rw [hc], fun ok fail => rfl⟩

/-- Witness for amended C5 at the concrete running session. -/
theorem cancel_full_reset_witness :
    dispatch gcOk sBusy "/cancel" = (defaultSession, [.cancelled], none) :=
  (cancel_full_reset gcOk sBusy "/cancel" (by decide)).1

/-- Claim C10: a `/test` command received while the session is running
still sends the diagnostic prompt, but leaves the session (its step and
every other field) unchanged. -/
theorem test_while_running_frame (gc : Option String → Except String Int)
    (s : Session) (text : String)
    (hc : classify text.toList = .test) (hr : s.running = true) :
    dispatch gc s text = (s, [.testPrompt], none) := by
  unfold dispatch
  rw [hc]
  simp [hr]

/-- Witness for C10 at the concrete running session. -/
theorem test_while_running_frame_witness :
    dispatch gcOk sBusy "/test" = (sBusy, [.testPrompt], none) :=
  test_while_running_frame gcOk sBusy "/test" (by decide) rfl

/-- Counterexample to claim C8 as stated: `/forward a b`, whose two values
do not parse as integers, produces no reply at all (the command pattern
does not match, so no handler runs): no format error is reported. -/
theorem malformed_forward_counterexample :
    classify "/forward a b".toList = .ignored ∧
    dispatch gcOk defaultSession "/forward a b" = (defaultSession, [], none) := by
  exact ⟨by decide, rfl⟩

lemma dropWhile_concat_not (p : Char → Bool) (xs : List Char) (c : Char)
    (hc : p c = false) : ∃ ys, (xs ++ [c]).dropWhile p = ys ++ [c] := by
  rw [List.dropWhile_append]
  split
  · exact ⟨[], by simp [List.dropWhile, hc]⟩
  · exact ⟨xs.dropWhile p, rfl⟩

lemma trimChars_cons_not_ws (c : Char) (l : List Char) (hc : isWsChar c = false) :
    ∃ l', trimChars (c :: l) = c :: l' := by
  unfold trimChars
  rw [List.dropWhile_cons, hc]
  simp only [Bool.false_eq_true, if_false]
  have h1 : (c :: l).reverse = l.reverse ++ [c] := by simp
  rw [h1]
  obtain ⟨ys, hys⟩ := dropWhile_concat_not isWsChar l.reverse c hc
  rw [hys]
  exact ⟨ys.reverse, by simp⟩

lemma classify_forward_prefix_ignored (text : String)
    (hp : "/forward".toList <+: text.toList)
    (hparse : parseForwardCmd text.toList = none) :
    classify text.toList = .ignored := by
  obtain ⟨rest, hrest⟩ := hp
  rw [← hrest] at hparse ⊢
  have h1 : simpleCmd "/start" ("/forward".toList ++ rest) = false := rfl
  have h2 : simpleCmd "/cancel" ("/forward".toList ++ rest) = false := rfl
  have h3 : simpleCmd "/chatid" ("/forward".toList ++ rest) = false := rfl
  have h4 : simpleCmd "/test" ("/forward".toList ++ rest) = false := rfl
  have h5 : "/forward".toList ++ rest = '/' :: ("forward".toList ++ rest) := rfl
  unfold classify
  rw [h1, h2, h3, h4, hparse]
  obtain ⟨l', hl'⟩ := trimChars_cons_not_ws '/' ("forward".toList ++ rest) (by decide)
  rw [h5, hl']
  simp

/-- Claim C8 (amended): a `/forward` range command whose two values do not
both parse as integers (so the two-integer command pattern does not match)
makes no session state change — but no format error is reported either:
no handler fires and the command is silently ignored. -/
theorem malformed_forward_silently_ignored (gc : Option String → Except String Int)
    (s : Session) (text : String)
    (hp : "/forward".toList <+: text.toList)
    (hparse : parseForwardCmd text.toList = none)
    (_hr : s.running = false) :
    dispatch gc s text = (s, [], none) := by
  unfold dispatch
  rw [classify_forward_prefix_ignored text hp hparse]

theorem malformed_forward_silently_ignored_witness :
    defaultSession.running = false ∧
    dispatch gcOk defaultSession "/forward a b" = (defaultSession, [], none) :=
  ⟨rfl, malformed_forward_silently_ignored gcOk defaultSession "/forward a b"
    (by decide) (by decide) rfl⟩

/-- Claim C4: once the destination reference is collected, the source is
resolved first and then the destination; either failure resets the session
to the default (no stored range or references retained), reports which side
failed with the underlying error, and never starts the forward loop; the
stored session becomes running exactly when both resolutions succeed. -/
theorem dst_resolution_flow (gc : Option String → Except String Int)
    (s : Session) (t : List Char) (ref : ChatRef)
    (hstep : s.step = some .DST) (_hr : s.running = false)
    (hn : normalizeLC t = some ref) :
    (∀ e, resolveChatIdM gc s.srcRef = .error e →
      stepHandler gc s t = (defaultSession, [.srcResolveError s.srcRef e], none)) ∧
    (∀ srcId e, resolveChatIdM gc s.srcRef = .ok srcId →
      resolveChatIdM gc (some ref) = .error e →
      stepHandler gc s t = (defaultSession, [.dstResolveError (some ref) e], none)) ∧
    (∀ srcId dstId a b, resolveChatIdM gc s.srcRef = .ok srcId →
      resolveChatIdM gc (some ref) = .ok dstId →
      s.startId = some a → s.endId = some b →
      stepHandler gc s t =
        ({ s with dstRef := some ref, step := none, running := true },
         [.startingCopy srcId dstId a b], some ⟨srcId, dstId, a, b⟩)) ∧
    ((stepHandler gc s t).1.running = true ↔
      (∃ srcId, resolveChatIdM gc s.srcRef = .ok srcId) ∧
      (∃ dstId, resolveChatIdM gc (some ref) = .ok dstId)) := by
  refine ⟨?_, ?_, ?_, ?_⟩
  · intro e he
    simp [stepHandler, hstep, hn, he]
  · intro srcId e hs he
    simp [stepHandler, hstep, hn, hs, he]
  · intro srcId dstId a b hs hd ha hb
    simp [stepHandler, hstep, hn, hs, hd, ha, hb]
  · cases hs : resolveChatIdM gc s.srcRef with
    | error e =>
      simp [stepHandler, hstep, hn, hs, defaultSession]
    | ok srcId =>
      cases hd : resolveChatIdM gc (some ref) with
      | error e =>
        simp [stepHandler, hstep, hn, hs, hd, defaultSession]
      | ok dstId =>
        cases ha : s.startId with
        | none => simp [stepHandler, hstep, hn, hs, hd, ha]
        | some a =>
          cases hb : s.endId with
          | none => simp [stepHandler, hstep, hn, hs, hd, ha, hb]
          | some b => simp [stepHandler, hstep, hn, hs, hd, ha, hb]

/-- Witness for C4: a concrete destination input with both sides
resolving, starting the run over the stored range. -/
theorem dst_resolution_flow_witness :
    stepHandler gcOk sDst "dstchan".toList =
      ({ sDst with dstRef := some (.handle "@dstchan"), step := none, running := true },
       [.startingCopy 42 42 5 7], some ⟨42, 42, 5, 7⟩) :=
  (dst_resolution_flow gcOk sDst "dstchan".toList (.handle "@dstchan")
    rfl rfl (by decide)).2.2.1 42 42 5 7 rfl rfl rfl rfl

lemma stepHandler_preserves_inv (gc : Option String → Except String Int)
    (s : Session) (t : List Char)
    (h : s.running = true → s.step = none) :
    (stepHandler gc s t).1.running = true → (stepHandler gc s t).1.step = none := by
  cases hs : s.step with
  | none => intro _; simp [stepHandler, hs]
  | some st =>
    have hrun : s.running = false := by
      cases hb : s.running with
      | false => rfl
      | true => rw [h hb] at hs; cases hs
    cases st with
    | TEST_USERNAME =>
      cases hn : normalizeLC t with
      | none => simp [stepHandler, hs, hn, hrun]
      | some ref =>
        cases ref with
        | num n => simp [stepHandler, hs, hn, hrun]
        | handle hd =>
          cases hg : gc (some hd) with
          | ok id => simp [stepHandler, hs, hn, hg, defaultSession]
          | error e => simp [stepHandler, hs, hn, hg, defaultSession]
    | SRC =>
      cases hn : normalizeLC t with
      | none => simp [stepHandler, hs, hn, hrun]
      | some ref => simp [stepHandler, hs, hn, hrun]
    | DST =>
      cases hn : normalizeLC t with
      | none => simp [stepHandler, hs, hn, hrun]
      | some ref =>
        cases hsrc : resolveChatIdM gc s.srcRef with
        | error e => simp [stepHandler, hs, hn, hsrc, defaultSession]
        | ok srcId =>
          cases hdst : resolveChatIdM gc (some ref) with
          | error e => simp [stepHandler, hs, hn, hsrc, hdst, defaultSession]
          | ok dstId =>
            cases ha : s.startId with
            | none => simp [stepHandler, hs, hn, hsrc, hdst, ha]
            | some a =>
              cases hb : s.endId with
              | none => simp [stepHandler, hs, hn, hsrc, hdst, ha, hb]
              | some b => simp [stepHandler, hs, hn, hsrc, hdst, ha, hb]

lemma applyEvent_preserves_inv (ev : Event) (s : Session)
    (h : s.running = true → s.step = none) :
    (applyEvent ev s).1.running = true → (applyEvent ev s).1.step = none := by
  cases ev with
  | runDone ok fail => intro _; rfl
  | msg text gc =>
    show (dispatch gc s text).1.running = true → (dispatch gc s text).1.step = none
    unfold dispatch
    cases hc : classify text.toList with
    | start => exact h
    | cancel => intro _; rfl
    | chatid => exact h
    | test =>
      cases hb : s.running with
      | true => simpa [hb] using h hb
      | false => simp [hb]
    | forward a b =>
      cases hb : s.running with
      | true => simpa [hb] using h hb
      | false => simp [hb]
    | stepText t => exact stepHandler_preserves_inv gc s t h
    | ignored => exact h

lemma stepHandler_dst_eq_phases (gc : Option String → Except String Int)
    (s : Session) (t : List Char) (ref : ChatRef)
    (hstep : s.step = some .DST) (hn : normalizeLC t = some ref) :
    stepHandler gc s t =
      (match dstAfterSrc (dstProlog s ref).1
          (resolveChatIdM gc (dstProlog s ref).2) with
       | (s1, outs, none) => (s1, outs, none)
       | (s1, _, some (srcId, dstArg)) =>
         dstAfterDst s1 srcId (resolveChatIdM gc dstArg)) := by
  cases hr : resolveChatIdM gc s.srcRef with
  | error e => simp [stepHandler, hstep, hn, dstProlog, dstAfterSrc, hr]
  | ok srcId =>
    cases hd : resolveChatIdM gc (some ref) with
    | error e =>
      simp [stepHandler, hstep, hn, dstProlog, dstAfterSrc, dstAfterDst, hr, hd]
    | ok dstId =>
      cases ha : s.startId <;> cases hb : s.endId <;>
        simp [stepHandler, hstep, hn, dstProlog, dstAfterSrc, dstAfterDst,
          hr, hd, ha, hb]

/-- Counterexample to claim C9 as stated: the invariant
`running = true → step = NONE` fails at a stored state the program
reaches.  Schedule: from the mid-setup state `sDst`, the destination
input `dstchan` runs the DST prologue (destination stored, step cleared)
and suspends at the source resolution; the source resolves to 42, the
handler reads the current destination reference and suspends at the
destination resolution (server.js line 252); during that suspension a
`/forward 1 2` is handled — the running guard at line 141 passes because
`running` is still false — storing a new range and setting the step to
`SRC`; the resuming handler then executes `s.running = true` (line 267)
on the same stored session, leaving `running = true` with `step = SRC`. -/
theorem running_with_step_src_counterexample :
    sMidDst.running = false ∧
    (dstAfterSrc sMidDst (.ok 42)).2.2 = some (42, some (.handle "@dstchan")) ∧
    sMidFwd = { step := some .SRC, running := false, startId := some 1,
                endId := some 2, srcRef := none, dstRef := none } ∧
    sViolating.running = true ∧ sViolating.step = some .SRC :=
  ⟨rfl, rfl, rfl, rfl, rfl⟩

/-- Claim C9 (amended): under handler-atomic scheduling — no other
message for the chat handled during a handler's awaits — every reachable
session state satisfies `running = true → step = NONE`, each atomically
executed handler preserving the invariant.  The program's finer
interleaving at the DST handler's resolution awaits violates it; see
`running_with_step_src_counterexample`. -/
theorem atomic_running_implies_step_none (s : Session)
    (h : AtomicReachable s) (hr : s.running = true) : s.step = none := by
  induction h with
  | init => exact absurd hr (by decide)
  | step s0 ev h0 ih => exact applyEvent_preserves_inv ev s0 ih hr

/-- Witness for amended C9: the concrete atomically-reachable running
state reached by `/forward 5 7`, then the source and destination
handles. -/
theorem atomic_running_implies_step_none_witness :
    sRun.running = true ∧ sRun.step = none :=
  ⟨by decide, atomic_running_implies_step_none sRun
    (AtomicReachable.step _ evDst (AtomicReachable.step _ evSrc
      (AtomicReachable.step _ evForward AtomicReachable.init))) (by decide)⟩

/-- Claim C2: an index whose first copy attempt fails with HTTP 429 and a
retry-after hint `n` sleeps `(n+1)` seconds and is retried exactly once:
the retry's success counts one success and applies the base delay, its
failure counts one failure and applies the failure delay; a failure
without that signal (including a 429 without a hint) counts one failure,
applies the failure delay and is never retried. -/
theorem rate_limit_retry_policy (baseMs failMs : Int) :
    (∀ (copy : Int → Bool → CopyOutcome) (mid n : Int),
      copy mid false = .err (some 429) (some n) →
      (processIndex copy baseMs failMs mid).attempts = [(mid, false), (mid, true)] ∧
      (processIndex copy baseMs failMs mid).sleeps.head? = some ((n + 1) * 1000) ∧
      (copy mid true = .ok →
        processIndex copy baseMs failMs mid =
          ⟨1, 0, [(mid, false), (mid, true)], [(n + 1) * 1000, baseMs]⟩) ∧
      (∀ st ra, copy mid true = .err st ra →
        processIndex copy baseMs failMs mid =
          ⟨0, 1, [(mid, false), (mid, true)], [(n + 1) * 1000, failMs]⟩)) ∧
    (∀ (copy : Int → Bool → CopyOutcome) (mid : Int) (st ra : Option Int),
      copy mid false = .err st ra → ¬(st = some 429 ∧ ra ≠ none) →
      processIndex copy baseMs failMs mid = ⟨0, 1, [(mid, false)], [failMs]⟩) := by
  constructor
  · intro copy mid n h1
    cases h2 : copy mid true with
    | ok =>
      have hpi : processIndex copy baseMs failMs mid =
          ⟨1, 0, [(mid, false), (mid, true)], [(n + 1) * 1000, baseMs]⟩ := by
        simp [processIndex, h1, h2]
      refine ⟨by rw [hpi], by rw [hpi]; rfl, fun _ => hpi, ?_⟩
      intro st ra h3
      cases h3
    | err st2 ra2 =>
      have hpi : processIndex copy baseMs failMs mid =
          ⟨0, 1, [(mid, false), (mid, true)], [(n + 1) * 1000, failMs]⟩ := by
        simp [processIndex, h1, h2]
      refine ⟨by rw [hpi], by rw [hpi]; rfl, ?_, fun st ra _ => hpi⟩
      intro h3
      cases h3
  · intro copy mid st ra h1 h2
    cases hra : ra with
    | none =>
      subst hra
      cases st with
      | none => simp [processIndex, h1]
      | some v => simp [processIndex, h1]
    | some n =>
      subst hra
      cases st with
      | none => simp [processIndex, h1]
      | some v =>
        have hv : v ≠ 429 := by
          intro hv
          exact h2 ⟨by rw [hv], by simp⟩
        simp [processIndex, h1, hv]

/-- Witness for C2: a 429 with hint 3 at index 6 whose retry succeeds, and
a plain failure at index 3. -/
theorem rate_limit_retry_policy_witness :
    processIndex copyRL 900 1700 6 = ⟨1, 0, [(6, false), (6, true)], [4000, 900]⟩ ∧
    processIndex copyPlain 900 1700 3 = ⟨0, 1, [(3, false)], [1700]⟩ := by
  constructor
  · have h := ((rate_limit_retry_policy 900 1700).1 copyRL 6 3 (by decide)).2.2.1 (by decide)
    simpa using h
  · exact (rate_limit_retry_policy 900 1700).2 copyPlain 3 (some 400) none rfl (by decide)

lemma processIndex_attempts_cases (copy : Int → Bool → CopyOutcome)
    (baseMs failMs mid : Int) :
    (processIndex copy baseMs failMs mid).attempts = [(mid, false)] ∨
    (processIndex copy baseMs failMs mid).attempts = [(mid, false), (mid, true)] := by
  unfold processIndex
  cases copy mid false with
  | ok => exact Or.inl rfl
  | err st ra =>
    cases st with
    | none => exact Or.inl rfl
    | some v =>
      cases ra with
      | none => exact Or.inl rfl
      | some n =>
        by_cases hv : v = 429
        · cases copy mid true with
          | ok => simp [hv]
          | err st2 ra2 => simp [hv]
        · simp [hv]

lemma processIndex_ok_fail_sum (copy : Int → Bool → CopyOutcome)
    (baseMs failMs mid : Int) :
    (processIndex copy baseMs failMs mid).okInc +
      (processIndex copy baseMs failMs mid).failInc = 1 := by
  unfold processIndex
  cases copy mid false with
  | ok => rfl
  | err st ra =>
    cases st with
    | none => rfl
    | some v =>
      cases ra with
      | none => rfl
      | some n =>
        by_cases hv : v = 429
        · cases copy mid true with
          | ok => simp [hv]
          | err st2 ra2 => simp [hv]
        · simp [hv]

lemma processIndex_firstMids (copy : Int → Bool → CopyOutcome)
    (baseMs failMs mid : Int) :
    firstMids (processIndex copy baseMs failMs mid).attempts = [mid] := by
  rcases processIndex_attempts_cases copy baseMs failMs mid with h | h <;>
    rw [firstMids, h] <;> rfl

lemma processIndex_attempts_fst (copy : Int → Bool → CopyOutcome)
    (baseMs failMs mid : Int) :
    ∀ p ∈ (processIndex copy baseMs failMs mid).attempts, p.1 = mid := by
  rcases processIndex_attempts_cases copy baseMs failMs mid with h | h
  · rw [h]
    intro p hp
    simp only [List.mem_singleton] at hp
    rw [hp]
  · rw [h]
    intro p hp
    simp only [List.mem_cons, List.mem_singleton] at hp
    rcases hp with rfl | hp
    · rfl
    · rcases hp with rfl | hp
      · rfl
      · cases hp

lemma processIndex_attempts_len (copy : Int → Bool → CopyOutcome)
    (baseMs failMs mid : Int) :
    1 ≤ (processIndex copy baseMs failMs mid).attempts.length ∧
      (processIndex copy baseMs failMs mid).attempts.length ≤ 2 := by
  rcases processIndex_attempts_cases copy baseMs failMs mid with h | h <;>
    rw [h] <;> simp

lemma runGo_nil (copy : Int → Bool → CopyOutcome) (baseMs failMs : Int) :
    runGo copy baseMs failMs [] = ⟨0, 0, [], []⟩ := rfl

lemma runGo_cons (copy : Int → Bool → CopyOutcome) (baseMs failMs mid : Int)
    (rest : List Int) :
    runGo copy baseMs failMs (mid :: rest) =
      ⟨(processIndex copy baseMs failMs mid).okInc + (runGo copy baseMs failMs rest).ok,
       (processIndex copy baseMs failMs mid).failInc + (runGo copy baseMs failMs rest).fail,
       (processIndex copy baseMs failMs mid).attempts ++ (runGo copy baseMs failMs rest).attempts,
       (processIndex copy baseMs failMs mid).sleeps ++ (runGo copy baseMs failMs rest).sleeps⟩ := rfl

lemma runGo_ok_fail (copy : Int → Bool → CopyOutcome) (baseMs failMs : Int)
    (L : List Int) :
    (runGo copy baseMs failMs L).ok + (runGo copy baseMs failMs L).fail = L.length := by
  induction L with
  | nil => rfl
  | cons mid rest ih =>
    rw [runGo_cons]
    have h := processIndex_ok_fail_sum copy baseMs failMs mid
    simp only [List.length_cons]
    omega

lemma runGo_firstMids (copy : Int → Bool → CopyOutcome) (baseMs failMs : Int)
    (L : List Int) :
    firstMids (runGo copy baseMs failMs L).attempts = L := by
  induction L with
  | nil => rfl
  | cons mid rest ih =>
    rw [runGo_cons]
    show firstMids ((processIndex copy baseMs failMs mid).attempts ++
      (runGo copy baseMs failMs rest).attempts) = mid :: rest
    rw [firstMids, List.filterMap_append]
    rw [show ∀ l, List.filterMap (fun p : Int × Bool => if p.2 then none else some p.1) l
          = firstMids l from fun _ => rfl,
        show ∀ l, List.filterMap (fun p : Int × Bool => if p.2 then none else some p.1) l
          = firstMids l from fun _ => rfl]
    rw [processIndex_firstMids, ih]
    rfl

lemma runGo_attempts_fst_mem (copy : Int → Bool → CopyOutcome) (baseMs failMs : Int)
    (L : List Int) :
    ∀ p ∈ (runGo copy baseMs failMs L).attempts, p.1 ∈ L := by
  induction L with
  | nil => intro p hp; cases hp
  | cons mid rest ih =>
    rw [runGo_cons]
    intro p hp
    simp only [List.mem_append] at hp
    rcases hp with hp | hp
    · rw [processIndex_attempts_fst copy baseMs failMs mid p hp]
      exact List.mem_cons_self mid rest
    · exact List.mem_cons_of_mem mid (ih p hp)

lemma runGo_mids_pairwise (copy : Int → Bool → CopyOutcome) (baseMs failMs : Int)
    (L : List Int) (hL : L.Pairwise (· ≤ ·)) :
    ((runGo copy baseMs failMs L).attempts.map Prod.fst).Pairwise (· ≤ ·) := by
  induction L with
  | nil => simp [runGo_nil]
  | cons mid rest ih =>
    rw [List.pairwise_cons] at hL
    obtain ⟨hhead, htail⟩ := hL
    rw [runGo_cons]
    show ((processIndex copy baseMs failMs mid).attempts ++
      (runGo copy baseMs failMs rest).attempts).map Prod.fst |>.Pairwise (· ≤ ·)
    rw [List.map_append, List.pairwise_append]
    refine ⟨?_, ih htail, ?_⟩
    · rcases processIndex_attempts_cases copy baseMs failMs mid with h | h <;>
        rw [h] <;> simp
    · intro x hx y hy
      simp only [List.mem_map] at hx hy
      obtain ⟨p, hp, hpx⟩ := hx
      obtain ⟨q, hq, hqy⟩ := hy
      rw [← hpx, ← hqy]
      rw [processIndex_attempts_fst copy baseMs failMs mid p hp]
      exact hhead q.1 (runGo_attempts_fst_mem copy baseMs failMs rest q hq)

lemma countP_const_fst (l : List (Int × Bool)) (mid m : Int)
    (h : ∀ p ∈ l, p.1 = mid) :
    l.countP (fun p => p.1 == m) = if mid = m then l.length else 0 := by
  induction l with
  | nil => simp
  | cons a rest ih =>
    have ha : a.1 = mid := h a (List.mem_cons_self a rest)
    have hrest : ∀ p ∈ rest, p.1 = mid := fun p hp => h p (List.mem_cons_of_mem a hp)
    rw [List.countP_cons, ih hrest, ha]
    by_cases hm : mid = m <;> simp [hm]

lemma processIndex_countP (copy : Int → Bool → CopyOutcome)
    (baseMs failMs mid m : Int) :
    (processIndex copy baseMs failMs mid).attempts.countP (fun p => p.1 == m) =
      if mid = m then (processIndex copy baseMs failMs mid).attempts.length else 0 :=
  countP_const_fst _ mid m (processIndex_attempts_fst copy baseMs failMs mid)

lemma runGo_countP (copy : Int → Bool → CopyOutcome) (baseMs failMs : Int)
    (L : List Int) (m : Int) :
    (runGo copy baseMs failMs L).attempts.countP (fun p => p.1 == m) =
      (L.map (fun mid => if mid = m
        then (processIndex copy baseMs failMs mid).attempts.length else 0)).sum := by
  induction L with
  | nil => rfl
  | cons mid rest ih =>
    rw [runGo_cons]
    show ((processIndex copy baseMs failMs mid).attempts ++
      (runGo copy baseMs failMs rest).attempts).countP (fun p => p.1 == m) = _
    rw [List.countP_append, processIndex_countP, ih]
    simp

lemma sum_map_ite_zero (L : List Int) (m : Int) (g : Int → Nat) (hm : m ∉ L) :
    (L.map (fun x => if x = m then g x else 0)).sum = 0 := by
  induction L with
  | nil => rfl
  | cons a rest ih =>
    have ha : a ≠ m := fun h => hm (h ▸ List.mem_cons_self a rest)
    have hrest : m ∉ rest := fun h => hm (List.mem_cons_of_mem a h)
    simp [ha, ih hrest]

lemma sum_map_ite_eq (L : List Int) (m : Int) (g : Int → Nat)
    (hnd : L.Nodup) (hm : m ∈ L) :
    (L.map (fun x => if x = m then g x else 0)).sum = g m := by
  induction L with
  | nil => cases hm
  | cons a rest ih =>
    rw [List.nodup_cons] at hnd
    obtain ⟨ha, hrest⟩ := hnd
    rcases List.mem_cons.mp hm with rfl | hm'
    · simp [sum_map_ite_zero rest m g ha]
    · have ham : a ≠ m := fun h => ha (h ▸ hm')
      simp [ham, ih hrest hm']

lemma rangeList_mem (lo hi m : Int) (h : lo ≤ hi) :
    m ∈ rangeList lo hi ↔ lo ≤ m ∧ m ≤ hi := by
  unfold rangeList
  simp only [List.mem_map, List.mem_range]
  constructor
  · rintro ⟨i, hilt, rfl⟩
    omega
  · rintro ⟨h1, h2⟩
    exact ⟨(m - lo).toNat, by omega, by omega⟩


lemma rangeList_pairwise_lt (lo hi : Int) :
    (rangeList lo hi).Pairwise (· < ·) := by
  unfold rangeList
  refine (List.pairwise_lt_range _).map _ (fun a b hab => ?_)
  omega

lemma rangeList_nodup (lo hi : Int) : (rangeList lo hi).Nodup :=
  (rangeList_pairwise_lt lo hi).imp (fun h => ne_of_lt h)

lemma rangeList_length (lo hi : Int) :
    (rangeList lo hi).length = (hi + 1 - lo).toNat := by
  unfold rangeList
  rw [List.length_map, List.length_range]

/-- Claim C1: a forward run over a range `lo ≤ hi` attempts every index of
the inclusive range, in order: the first attempts are exactly
`lo, lo+1, …, hi` (a strictly increasing list), the whole attempt sequence
is monotone, every in-range index is attempted once or twice and every
attempt is at an in-range index; each index contributes exactly one to the
success count or the failure count, so `ok + fail = hi - lo + 1`; and the
run's completion sends the final summary with both counts and resets the
session to the default. -/
theorem forward_run_covers_range (copy : Int → Bool → CopyOutcome)
    (baseMs failMs lo hi : Int) (h : lo ≤ hi) :
    firstMids (runForward copy baseMs failMs lo hi).attempts = rangeList lo hi ∧
    (rangeList lo hi).Pairwise (· < ·) ∧
    ((runForward copy baseMs failMs lo hi).attempts.map Prod.fst).Pairwise (· ≤ ·) ∧
    (∀ m, lo ≤ m → m ≤ hi →
      1 ≤ (runForward copy baseMs failMs lo hi).attempts.countP (fun p => p.1 == m) ∧
      (runForward copy baseMs failMs lo hi).attempts.countP (fun p => p.1 == m) ≤ 2) ∧
    (∀ p ∈ (runForward copy baseMs failMs lo hi).attempts, lo ≤ p.1 ∧ p.1 ≤ hi) ∧
    (∀ m, lo ≤ m → m ≤ hi →
      (processIndex copy baseMs failMs m).okInc +
        (processIndex copy baseMs failMs m).failInc = 1) ∧
    (runForward copy baseMs failMs lo hi).ok +
      (runForward copy baseMs failMs lo hi).fail = (hi - lo + 1).toNat ∧
    (∀ s : Session,
      applyEvent (.runDone (runForward copy baseMs failMs lo hi).ok
          (runForward copy baseMs failMs lo hi).fail) s =
        (defaultSession,
         [.doneSummary (runForward copy baseMs failMs lo hi).ok
            (runForward copy baseMs failMs lo hi).fail], none)) := by
  refine ⟨runGo_firstMids copy baseMs failMs (rangeList lo hi),
    rangeList_pairwise_lt lo hi,
    runGo_mids_pairwise copy baseMs failMs (rangeList lo hi)
      ((rangeList_pairwise_lt lo hi).imp le_of_lt),
    ?_, ?_, ?_, ?_, fun s => rfl⟩
  · intro m h1 h2
    have hm : m ∈ rangeList lo hi := (rangeList_mem lo hi m h).mpr ⟨h1, h2⟩
    have hc : (runForward copy baseMs failMs lo hi).attempts.countP (fun p => p.1 == m) =
        (processIndex copy baseMs failMs m).attempts.length := by
      rw [runForward, runGo_countP]
      exact sum_map_ite_eq (rangeList lo hi) m _ (rangeList_nodup lo hi) hm
    rw [hc]
    exact processIndex_attempts_len copy baseMs failMs m
  · intro p hp
    have := runGo_attempts_fst_mem copy baseMs failMs (rangeList lo hi) p hp
    exact (rangeList_mem lo hi p.1 h).mp this
  · intro m _ _
    exact processIndex_ok_fail_sum copy baseMs failMs m
  · rw [runForward, runGo_ok_fail, rangeList_length]
    congr 1
    omega

/-- Witness for C1: a run over 5..7 with every copy call succeeding has
`ok + fail = 3`. -/
theorem forward_run_covers_range_witness :
    (5 : Int) ≤ 7 ∧
    (runForward copyAllOk 900 1700 5 7).ok +
      (runForward copyAllOk 900 1700 5 7).fail = ((7 : Int) - 5 + 1).toNat :=
  ⟨by decide,
   (forward_run_covers_range copyAllOk 900 1700 5 7 (by decide)).2.2.2.2.2.2.1⟩

end Forw
